import Mathlib

set_option autoImplicit false

/-!
Verification development for the merle message bus and tunnel/port manager.

The Go source is shallowly embedded:
- handlers (Go values of type func(*Packet)) are opaque identifiers with
  decidable equality, modelling the pointer equality used by unsubscribe;
- the subscription map (Go map[string][]func(*Packet)) is an association
  list with unique keys;
- regexp.MatchString is an oracle parameter of type String → String → Option
  Bool, where none models a compile error (logged and skipped by receive);
- times are natural numbers of seconds;
- a packet is reduced to the data the bus inspects: its Msg discriminator
  string and its optional source socket.
-/

namespace Merle

/-- Handlers are modelled as opaque identifiers; equality of identifiers
models the reflect pointer equality test in bus.unsubscribe. -/
abbrev Handler := Nat

/-- The subscription table of bus.subs, an association list from pattern to
the ordered list of registered handlers. -/
abbrev Subs := List (String × List Handler)

/-- Association-list lookup, modelling Go map indexing of bus.subs. -/
def lookupSub : Subs → String → Option (List Handler)
  | [], _ => none
  | (k, fs) :: rest, key => if k = key then some fs else lookupSub rest key

/-- Association-list update at an existing key, modelling Go map assignment. -/
def setSub : Subs → String → List Handler → Subs
  | [], _, _ => []
  | (k, fs) :: rest, key, v =>
      if k = key then (k, v) :: rest else (k, fs) :: setSub rest key v

/-- Association-list removal of a key, modelling Go delete on bus.subs. -/
def eraseSub : Subs → String → Subs
  | [], _ => []
  | (k, fs) :: rest, key => if k = key then rest else (k, fs) :: eraseSub rest key

/-- The keys of the table are pairwise distinct, as in a Go map. -/
def NodupKeys (subs : Subs) : Prop := (subs.map Prod.fst).Nodup

instance (subs : Subs) : Decidable (NodupKeys subs) :=
  inferInstanceAs (Decidable (List.Nodup _))

/-- Model of bus.subscribe: appends the handler to the list for the pattern,
creating the entry if absent (Go append on a possibly-nil slice). -/
def subscribe (subs : Subs) (msg : String) (f : Handler) : Subs :=
  match lookupSub subs msg with
  | none => subs ++ [(msg, [f])]
  | some fs => setSub subs msg (fs ++ [f])

/-- Removes the first occurrence of a handler from a list, modelling the
loop in bus.unsubscribe that splices out index i and breaks. -/
def removeFirst (f : Handler) : List Handler → List Handler
  | [] => []
  | g :: gs => if g = f then gs else g :: removeFirst f gs

/-- Model of bus.unsubscribe: no-op when the pattern is absent; otherwise
removes the first identical handler and deletes the entry if it became
empty. -/
def unsubscribe (subs : Subs) (msg : String) (f : Handler) : Subs :=
  match lookupSub subs msg with
  | none => subs
  | some fs =>
      let fs' := removeFirst f fs
      if fs' = [] then eraseSub subs msg else setSub subs msg fs'

/-- Model of bus.receive: for every table entry whose pattern matches the
discriminator of the packet under the regexp oracle rm, the handlers of the
entry run in list order; a pattern on which rm reports a compile error
(none) is skipped. The trace records the pattern and handler of each
invocation in order. -/
def receiveTrace (rm : String → String → Option Bool) : Subs → String → List (String × Handler)
  | [], _ => []
  | (k, fs) :: rest, m =>
      (if rm k m = some true then fs.map (fun f => (k, f)) else [])
        ++ receiveTrace rm rest m

/-- Every invocation in the receive trace carries a pattern that is a key of
the table. -/
theorem receiveTrace_key_mem (rm : String → String → Option Bool)
    (subs : Subs) (m : String) (e : String × Handler)
    (he : e ∈ receiveTrace rm subs m) : e.1 ∈ subs.map Prod.fst := by
  induction subs with
  | nil => simp [receiveTrace] at he
  | cons hd tl ih =>
      simp only [receiveTrace, List.mem_append] at he
      rcases he with h | h
      · rcases Decidable.em (rm hd.1 m = some true) with hm | hm
        · simp only [hm, if_pos] at h
          rcases List.mem_map.mp h with ⟨f, _, rfl⟩
          simp
        · simp [hm] at h
      · simp [ih h]

/-- A pattern that is not a key of the table contributes nothing to the
receive trace. -/
theorem receiveTrace_filter_not_mem (rm : String → String → Option Bool)
    (subs : Subs) (m k : String) (hk : k ∉ subs.map Prod.fst) :
    (receiveTrace rm subs m).filter (fun e => decide (e.1 = k)) = [] := by
  rw [List.filter_eq_nil_iff]
  intro e he
  simp only [decide_eq_true_eq]
  intro hek
  exact hk (hek ▸ receiveTrace_key_mem rm subs m e he)

/-- Lookup after updating the same existing key yields the new value. -/
theorem lookupSub_setSub_self (subs : Subs) (k : String) (fs v : List Handler)
    (h : lookupSub subs k = some fs) :
    lookupSub (setSub subs k v) k = some v := by
  induction subs with
  | nil => simp [lookupSub] at h
  | cons hd tl ih =>
      obtain ⟨a, gs⟩ := hd
      by_cases hk : a = k
      · simp [lookupSub, setSub, hk]
      · simp only [lookupSub, if_neg hk] at h
        simp only [setSub, if_neg hk, lookupSub, if_neg hk]
        exact ih h

/-- Lookup of a different key is unchanged by an update. -/
theorem lookupSub_setSub_ne (subs : Subs) (k k' : String) (v : List Handler)
    (h : k' ≠ k) :
    lookupSub (setSub subs k v) k' = lookupSub subs k' := by
  induction subs with
  | nil => simp [setSub]
  | cons hd tl ih =>
      obtain ⟨a, gs⟩ := hd
      by_cases hk : a = k
      · have hne : ¬a = k' := fun hh => h (by rw [← hh, hk])
        simp only [setSub, if_pos hk, lookupSub, if_neg hne]
      · simp only [setSub, if_neg hk, lookupSub]
        by_cases hk' : a = k'
        · simp [hk']
        · simp only [if_neg hk']
          exact ih

/-- Lookup fails exactly when the key is absent from the table. -/
theorem lookupSub_eq_none_iff (subs : Subs) (k : String) :
    lookupSub subs k = none ↔ k ∉ subs.map Prod.fst := by
  induction subs with
  | nil => simp [lookupSub]
  | cons hd tl ih =>
      obtain ⟨a, gs⟩ := hd
      simp only [lookupSub, List.map_cons, List.mem_cons]
      by_cases hk : a = k
      · simp [hk]
      · simp only [if_neg hk, ih]
        constructor
        · intro hnot hor
          rcases hor with hor | hor
          · exact hk hor.symm
          · exact hnot hor
        · intro hnot hmem
          exact hnot (Or.inr hmem)

/-- With distinct keys, erasing a key makes its lookup fail. -/
theorem lookupSub_eraseSub_self (subs : Subs) (k : String)
    (hnd : NodupKeys subs) :
    lookupSub (eraseSub subs k) k = none := by
  induction subs with
  | nil => simp [eraseSub, lookupSub]
  | cons hd tl ih =>
      obtain ⟨a, gs⟩ := hd
      simp only [NodupKeys, List.map_cons, List.nodup_cons] at hnd
      by_cases hk : a = k
      · simp only [eraseSub, if_pos hk]
        rw [lookupSub_eq_none_iff]
        rw [← hk]
        exact hnd.1
      · simp only [eraseSub, if_neg hk, lookupSub, if_neg hk]
        exact ih hnd.2

/-- Lookup of a different key is unchanged by an erase. -/
theorem lookupSub_eraseSub_ne (subs : Subs) (k k' : String) (h : k' ≠ k) :
    lookupSub (eraseSub subs k) k' = lookupSub subs k' := by
  induction subs with
  | nil => simp [eraseSub]
  | cons hd tl ih =>
      obtain ⟨a, gs⟩ := hd
      by_cases hk : a = k
      · have hne : ¬a = k' := fun hh => h (by rw [← hh, hk])
        simp only [eraseSub, if_pos hk, lookupSub, if_neg hne]
      · simp only [eraseSub, if_neg hk, lookupSub]
        by_cases hk' : a = k'
        · simp [hk']
        · simp only [if_neg hk']
          exact ih

/-- Filtering a block of invocations that all carry the key keeps everything. -/
theorem filter_mapPair_eq (k : String) (fs : List Handler) :
    (((fs.map (fun f => (k, f))).filter (fun e => decide (e.1 = k))).map Prod.snd) = fs := by
  induction fs with
  | nil => simp
  | cons g gs ih => simp [ih]

/-- Filtering a block of invocations under a different key removes everything. -/
theorem filter_mapPair_ne (a k : String) (h : ¬a = k) (fs : List Handler) :
    ((fs.map (fun f => (a, f))).filter (fun e => decide (e.1 = k))) = [] := by
  induction fs with
  | nil => simp
  | cons g gs ih => simp [h, ih]

/-- The handlers that receive invokes for a given pattern are exactly the
registered list for that pattern when the regexp oracle matches, in table
order, and nothing otherwise. -/
theorem receiveTrace_filter (rm : String → String → Option Bool)
    (subs : Subs) (m k : String) (hnd : NodupKeys subs) :
    ((receiveTrace rm subs m).filter (fun e => decide (e.1 = k))).map Prod.snd
      = if rm k m = some true then (lookupSub subs k).getD [] else [] := by
  induction subs with
  | nil => simp [receiveTrace, lookupSub]
  | cons hd tl ih =>
      obtain ⟨a, fs⟩ := hd
      simp only [NodupKeys, List.map_cons, List.nodup_cons] at hnd
      simp only [receiveTrace, List.filter_append, List.map_append]
      by_cases hk : a = k
      · subst hk
        have htl : (receiveTrace rm tl m).filter (fun e => decide (e.1 = a)) = [] :=
          receiveTrace_filter_not_mem rm tl m a hnd.1
        rw [htl]
        simp only [lookupSub, if_pos rfl, List.map_nil, List.append_nil]
        by_cases hm : rm a m = some true
        · rw [if_pos hm, if_pos hm]
          simpa using filter_mapPair_eq a fs
        · rw [if_neg hm, if_neg hm]
          rfl
      · have hblk :
            ((if rm a m = some true then fs.map (fun f => (a, f)) else [])
              |>.filter (fun e => decide (e.1 = k))) = [] := by
          by_cases hm : rm a m = some true
          · rw [if_pos hm]
            exact filter_mapPair_ne a k hk fs
          · rw [if_neg hm]
            rfl
        rw [hblk]
        simp only [List.map_nil, List.nil_append, lookupSub, if_neg hk]
        exact ih hnd.2

/-- Lookup after an append when the key is absent on the left. -/
theorem lookupSub_append_of_none (l1 l2 : Subs) (k : String)
    (h : lookupSub l1 k = none) :
    lookupSub (l1 ++ l2) k = lookupSub l2 k := by
  induction l1 with
  | nil => simp
  | cons hd tl ih =>
      obtain ⟨a, fs⟩ := hd
      by_cases hk : a = k
      · simp [lookupSub, hk] at h
      · simp only [lookupSub, if_neg hk] at h
        simp only [List.cons_append, lookupSub, if_neg hk]
        exact ih h

/-- Subscribing appends the handler at the end of the registration list for
the pattern, creating a fresh one-element list when the pattern is new. -/
theorem lookupSub_subscribe_self (subs : Subs) (k : String) (f : Handler) :
    lookupSub (subscribe subs k f) k
      = some ((lookupSub subs k).getD [] ++ [f]) := by
  unfold subscribe
  cases h : lookupSub subs k with
  | none =>
      simp only [Option.getD_none, List.nil_append]
      rw [lookupSub_append_of_none subs _ k h]
      simp [lookupSub]
  | some fs =>
      simp only [Option.getD_some]
      exact lookupSub_setSub_self subs k fs (fs ++ [f]) h

/-- C1: for every registered (pattern, handler) pair and every packet,
receive invokes the handler under a pattern exactly when the regexp oracle
matches that pattern against the packet discriminator, and the handlers a
matching pattern invokes are its full registration list in order; subscribe
appends at the end of that list, so same-pattern handlers run in the order
subscribe appended them. -/
theorem receive_invokes_iff_pattern_matches :
    (∀ (rm : String → String → Option Bool) (subs : Subs) (m k : String),
        NodupKeys subs →
        ((receiveTrace rm subs m).filter (fun e => decide (e.1 = k))).map Prod.snd
          = if rm k m = some true then (lookupSub subs k).getD [] else [])
    ∧ (∀ (subs : Subs) (k : String) (f : Handler),
        lookupSub (subscribe subs k f) k
          = some ((lookupSub subs k).getD [] ++ [f])) :=
  ⟨receiveTrace_filter, lookupSub_subscribe_self⟩

/-- Regexp oracle used for concrete evaluation: exact-string matching. -/
def rmExact : String → String → Option Bool :=
  fun pat s => some (decide (pat = s))

/-- Witness for C1 at a concrete subscription table and packet. -/
theorem receive_invokes_iff_pattern_matches_witness :
    NodupKeys [("alpha", [0, 1]), ("beta", [2])] ∧
    ((receiveTrace rmExact [("alpha", [0, 1]), ("beta", [2])] "alpha").filter
        (fun e => decide (e.1 = "alpha"))).map Prod.snd
      = if rmExact "alpha" "alpha" = some true
          then (lookupSub [("alpha", [0, 1]), ("beta", [2])] "alpha").getD []
          else [] :=
  ⟨by decide,
   receive_invokes_iff_pattern_matches.1 rmExact
     [("alpha", [0, 1]), ("beta", [2])] "alpha" "alpha" (by decide)⟩

/-- Removing the first occurrence splices out exactly that occurrence. -/
theorem removeFirst_append (f : Handler) (l1 l2 : List Handler)
    (h : f ∉ l1) :
    removeFirst f (l1 ++ f :: l2) = l1 ++ l2 := by
  induction l1 with
  | nil => simp [removeFirst]
  | cons g gs ih =>
      simp only [List.mem_cons, not_or] at h
      simp only [List.cons_append, removeFirst]
      rw [if_neg (fun hh => h.1 hh.symm)]
      exact congrArg (fun l => g :: l) (ih h.2)

/-- C8: unsubscribe removes exactly the first registration identical to the
supplied handler, leaves the remaining registrations of the pattern (and the
other patterns) intact, and when that was the last handler the pattern entry
disappears, so a later matching packet triggers no handler for it. -/
theorem unsubscribe_removes_first_only :
    ∀ (subs : Subs) (k : String) (f : Handler) (l1 l2 : List Handler),
      NodupKeys subs →
      lookupSub subs k = some (l1 ++ f :: l2) →
      f ∉ l1 →
      (lookupSub (unsubscribe subs k f) k
         = if l1 ++ l2 = [] then none else some (l1 ++ l2))
      ∧ (∀ k', k' ≠ k →
          lookupSub (unsubscribe subs k f) k' = lookupSub subs k')
      ∧ (l1 ++ l2 = [] →
          ∀ (rm : String → String → Option Bool) (m : String),
            (receiveTrace rm (unsubscribe subs k f) m).filter
              (fun e => decide (e.1 = k)) = []) := by
  intro subs k f l1 l2 hnd hlk hf
  have hrm : removeFirst f (l1 ++ f :: l2) = l1 ++ l2 :=
    removeFirst_append f l1 l2 hf
  by_cases hnil : l1 ++ l2 = []
  · have hu : unsubscribe subs k f = eraseSub subs k := by
      unfold unsubscribe
      rw [hlk]
      simp only [hrm, if_pos hnil]
    refine ⟨?_, ?_, ?_⟩
    · rw [hu, if_pos hnil]
      exact lookupSub_eraseSub_self subs k hnd
    · intro k' hk'
      rw [hu]
      exact lookupSub_eraseSub_ne subs k k' hk'
    · intro _ rm m
      rw [hu]
      refine receiveTrace_filter_not_mem rm _ m k ?_
      rw [← lookupSub_eq_none_iff]
      exact lookupSub_eraseSub_self subs k hnd
  · have hu : unsubscribe subs k f = setSub subs k (l1 ++ l2) := by
      unfold unsubscribe
      rw [hlk]
      simp only [hrm, if_neg hnil]
    refine ⟨?_, ?_, ?_⟩
    · rw [hu, if_neg hnil]
      exact lookupSub_setSub_self subs k _ _ hlk
    · intro k' hk'
      rw [hu]
      exact lookupSub_setSub_ne subs k k' _ hk'
    · intro hc
      exact absurd hc hnil

/-- Witness for C8: removing the only handler of a pattern deletes the
pattern, leaves the other pattern untouched, and silences later matches. -/
theorem unsubscribe_removes_first_only_witness :
    NodupKeys [("alpha", [5]), ("beta", [6])] ∧
    lookupSub (unsubscribe [("alpha", [5]), ("beta", [6])] "alpha" 5) "alpha"
      = if ([] ++ [] : List Handler) = [] then none else some ([] ++ []) :=
  ⟨by decide,
   (unsubscribe_removes_first_only [("alpha", [5]), ("beta", [6])] "alpha" 5
      [] [] (by decide) (by decide) (by decide)).1⟩

/-! Socket side of the bus: plugin, unplug, broadcast.

Sockets are identified by natural numbers; the set of plugged sockets
(the Go map bus.sockets, keyed by ISocket) is a Finset; the buffered
channel bus.socketQ of capacity socketsMax is modelled by the number of
slots currently held (queued). A packet source is an Option socket, none
modelling a nil src for internally generated packets. -/

/-- Tests whether the packet source is a plugged socket, as the code does
with a nil check followed by a map lookup. -/
def srcPlugged (socks : Finset ℕ) : Option ℕ → Bool
  | some s => decide (s ∈ socks)
  | none => false

/-- Model of bus.broadcast: the set of sockets the packet is sent to.
Empty when no socket is plugged; empty when exactly one socket is plugged
and it is the packet source; otherwise every plugged socket except the
source. -/
def broadcastTargets (socks : Finset ℕ) (src : Option ℕ) : Finset ℕ :=
  if socks.card = 0 then ∅
  else if socks.card = 1 ∧ srcPlugged socks src = true then ∅
  else
    match src with
    | none => socks
    | some s => socks.erase s

/-- C7: broadcast delivers to no socket when none is plugged, to no socket
when exactly one is plugged and it is the packet source, and otherwise to
every plugged socket except the source. -/
theorem broadcast_delivery (socks : Finset ℕ) (src : Option ℕ) :
    (socks = ∅ → broadcastTargets socks src = ∅)
    ∧ (∀ s, socks = {s} → src = some s → broadcastTargets socks src = ∅)
    ∧ (socks ≠ ∅ → ¬(socks.card = 1 ∧ srcPlugged socks src = true) →
        ∀ x, x ∈ broadcastTargets socks src ↔ x ∈ socks ∧ some x ≠ src) := by
  refine ⟨?_, ?_, ?_⟩
  · intro h
    subst h
    simp [broadcastTargets]
  · intro s hs hsrc
    subst hs
    subst hsrc
    simp [broadcastTargets, srcPlugged]
  · intro hne hnot x
    have hcard : socks.card ≠ 0 := by
      simpa [Finset.card_eq_zero] using hne
    unfold broadcastTargets
    rw [if_neg hcard, if_neg hnot]
    cases src with
    | none => simp
    | some s =>
        simp only [Finset.mem_erase, Ne, Option.some.injEq]
        constructor
        · intro hx
          exact ⟨hx.2, fun hh => hx.1 hh⟩
        · intro hx
          exact ⟨fun hh => hx.2 hh, hx.1⟩

/-- Witness for C7 at concrete socket sets. -/
theorem broadcast_delivery_witness :
    broadcastTargets ∅ (some 3) = ∅
    ∧ broadcastTargets {4} (some 4) = ∅
    ∧ (5 ∈ broadcastTargets {4, 5} (some 4) ↔ 5 ∈ ({4, 5} : Finset ℕ) ∧ some 5 ≠ some 4) :=
  ⟨(broadcast_delivery ∅ (some 3)).1 rfl,
   (broadcast_delivery {4} (some 4)).2.1 4 rfl rfl,
   (broadcast_delivery {4, 5} (some 4)).2.2 (by decide) (by decide) 5⟩

/-- C9: a packet with no source socket is broadcast to every plugged
socket, the single plugged socket included; moreover the single-socket
no-op happens only when the source is a plugged socket, hence non-nil. -/
theorem broadcast_nil_src_delivers_all :
    (∀ socks : Finset ℕ, broadcastTargets socks none = socks)
    ∧ (∀ (s : ℕ), broadcastTargets {s} none = {s})
    ∧ (∀ (socks : Finset ℕ) (src : Option ℕ), socks.card = 1 →
        broadcastTargets socks src = ∅ → srcPlugged socks src = true) := by
  have hall : ∀ socks : Finset ℕ, broadcastTargets socks none = socks := by
    intro socks
    unfold broadcastTargets
    by_cases h0 : socks.card = 0
    · rw [if_pos h0]
      exact (Finset.card_eq_zero.mp h0).symm
    · rw [if_neg h0, if_neg (by simp [srcPlugged])]
  refine ⟨hall, fun s => hall {s}, ?_⟩
  intro socks src h1 hempty
  by_contra hnp
  have hne : socks.card ≠ 0 := by simp [h1]
  unfold broadcastTargets at hempty
  rw [if_neg hne, if_neg (fun hc => hnp hc.2)] at hempty
  cases src with
  | none =>
      have hs0 : socks = ∅ := hempty
      rw [hs0] at h1
      simp at h1
  | some s =>
      simp only [srcPlugged, decide_eq_true_eq] at hnp
      have hs0 : socks.erase s = ∅ := hempty
      rw [Finset.erase_eq_of_not_mem hnp] at hs0
      rw [hs0] at h1
      simp at h1

/-- State of the socket side of the bus: the plugged sockets and the number
of capacity slots currently held on the socketQ channel. -/
structure BusState where
  socks : Finset ℕ
  queued : ℕ
deriving DecidableEq

/-- A freshly built bus (NewBus): no socket plugged, no slot held. -/
def busInit : BusState := ⟨∅, 0⟩

/-- The channel send in bus.plugin completes without blocking exactly when
fewer than socketsMax slots are held. -/
def pluginEnabled (cap : ℕ) (st : BusState) : Prop := st.queued < cap

instance (cap : ℕ) (st : BusState) : Decidable (pluginEnabled cap st) :=
  inferInstanceAs (Decidable (_ < _))

/-- The state after bus.unplug of a socket: the socket is deleted from the
map and one slot is released from the channel. -/
def unplugResult (st : BusState) (s : ℕ) : BusState :=
  ⟨st.socks.erase s, st.queued - 1⟩

/-- One step of the socket side of the bus, in the disciplined usage of the
call sites (web.go ws and runInBridge pair every unplug with an earlier
plugin of the same socket, so unplug only sees plugged sockets). A plugin
blocked at capacity and an unplug blocked on an empty channel take no step. -/
inductive BusStep (cap : ℕ) : BusState → BusState → Prop
  | plugin (st : BusState) (s : ℕ) (h : st.queued < cap) :
      BusStep cap st ⟨insert s st.socks, st.queued + 1⟩
  | unplug (st : BusState) (s : ℕ) (hs : s ∈ st.socks) (h : 0 < st.queued) :
      BusStep cap st (unplugResult st s)

/-- Reachability from the fresh bus by plugin and unplug steps. -/
def ReachableBus (cap : ℕ) (st : BusState) : Prop :=
  Relation.ReflTransGen (BusStep cap) busInit st

/-- In every reachable state, the plugged-socket count is at most the held
slot count, which is at most the capacity. -/
theorem reachableBus_counts (cap : ℕ) (st : BusState)
    (h : ReachableBus cap st) :
    st.socks.card ≤ st.queued ∧ st.queued ≤ cap := by
  induction h with
  | refl => simp [busInit]
  | tail hprev hstep ih =>
      rename_i st1 st2
      clear hprev
      cases hstep with
      | plugin s hq =>
          refine ⟨?_, hq⟩
          calc (insert s st1.socks).card ≤ st1.socks.card + 1 :=
                Finset.card_insert_le s st1.socks
            _ ≤ st1.queued + 1 := Nat.add_le_add_right ih.1 1
      | unplug s hs hq =>
          refine ⟨?_, Nat.le_trans (Nat.sub_le _ _) ih.2⟩
          have hcard : (st1.socks.erase s).card = st1.socks.card - 1 :=
            Finset.card_erase_of_mem hs
          show (st1.socks.erase s).card ≤ st1.queued - 1
          rw [hcard]
          exact Nat.sub_le_sub_right ih.1 1

/-- C2: in every reachable state of a bus with capacity socketsMax, the
plugged-socket count never exceeds socketsMax; when the count is at
socketsMax the channel send in plugin blocks, and after any unplug of a
plugged socket the send is enabled again. -/
theorem plugin_bounded_by_capacity (cap : ℕ) (st : BusState)
    (h : ReachableBus cap st) :
    st.socks.card ≤ cap
    ∧ (st.socks.card = cap → ¬pluginEnabled cap st)
    ∧ (∀ s, s ∈ st.socks → st.socks.card = cap →
        pluginEnabled cap (unplugResult st s)) := by
  obtain ⟨h1, h2⟩ := reachableBus_counts cap st h
  refine ⟨Nat.le_trans h1 h2, ?_, ?_⟩
  · intro hfull
    have : cap ≤ st.queued := hfull ▸ h1
    exact fun hlt => Nat.not_lt.mpr this hlt
  · intro s hs hfull
    have hq : st.queued = cap := Nat.le_antisymm h2 (hfull ▸ h1)
    have hpos : 0 < cap := by
      have : 0 < st.socks.card := Finset.card_pos.mpr ⟨s, hs⟩
      exact hfull ▸ this
    show st.queued - 1 < cap
    rw [hq]
    exact Nat.sub_lt hpos Nat.one_pos

/-- Witness for C2: a one-capacity bus with one plugged socket is reachable,
is at capacity, and unplugging re-enables plugin. -/
theorem plugin_bounded_by_capacity_witness :
    ReachableBus 1 ⟨{0}, 1⟩
    ∧ ({0} : Finset ℕ).card ≤ 1
    ∧ pluginEnabled 1 (unplugResult ⟨{0}, 1⟩ 0) := by
  have hr : ReachableBus 1 ⟨{0}, 1⟩ := by
    have hstep : BusStep 1 busInit ⟨insert 0 busInit.socks, busInit.queued + 1⟩ :=
      BusStep.plugin busInit 0 (by decide)
    have he : (⟨insert 0 busInit.socks, busInit.queued + 1⟩ : BusState)
        = ⟨{0}, 1⟩ := by
      simp [busInit]
    exact Relation.ReflTransGen.single (he ▸ hstep)
  have hmain := plugin_bounded_by_capacity 1 ⟨{0}, 1⟩ hr
  exact ⟨hr, hmain.1, hmain.2.2 0 (by decide) (by decide)⟩

/-- Model of bus.plugin as a step function: none when the channel send
blocks because all capacity slots are held. -/
def pluginF (cap : ℕ) (st : BusState) (s : ℕ) : Option BusState :=
  if st.queued < cap then some ⟨insert s st.socks, st.queued + 1⟩ else none

/-- Model of bus.unplug as a step function: the socket is deleted from the
map and a slot is received from the channel, with none when the receive
blocks because no slot is held. The delete happens whether or not the
socket was plugged, and the receive happens regardless of the delete. -/
def unplugF (st : BusState) (s : ℕ) : Option BusState :=
  if 0 < st.queued then some (unplugResult st s) else none

/-- Counterexample to C3: on a capacity-1 bus holding one plugged socket,
unplugging a socket that is not plugged leaves the socket set unchanged but
changes the capacity accounting: it releases the held slot, and a
subsequent plugin completes even though the bus still holds one plugged
socket, ending with two plugged sockets on a capacity-1 bus. -/
theorem unplug_unplugged_not_noop :
    (1 : ℕ) ∉ (⟨{0}, 1⟩ : BusState).socks
    ∧ unplugF ⟨{0}, 1⟩ 1 = some ⟨{0}, 0⟩
    ∧ (⟨{0}, 0⟩ : BusState).queued ≠ (⟨{0}, 1⟩ : BusState).queued
    ∧ ¬pluginEnabled 1 ⟨{0}, 1⟩
    ∧ pluginF 1 ⟨{0}, 0⟩ 2 = some ⟨{2, 0}, 1⟩
    ∧ ({2, 0} : Finset ℕ).card > 1 := by
  refine ⟨by decide, by decide, by decide, by decide, rfl, by decide⟩

/-- C3 amended: unplug of a socket that is not plugged leaves the socket
set unchanged but still consumes one capacity slot, blocking when no slot
is held. -/
theorem unplug_unplugged_releases_slot (st : BusState) (s : ℕ)
    (hs : s ∉ st.socks) :
    (0 < st.queued → unplugF st s = some ⟨st.socks, st.queued - 1⟩)
    ∧ (st.queued = 0 → unplugF st s = none) := by
  constructor
  · intro hq
    unfold unplugF
    rw [if_pos hq]
    unfold unplugResult
    rw [Finset.erase_eq_of_not_mem hs]
  · intro hq
    unfold unplugF
    rw [if_neg (by simp [hq])]

/-- Witness for the amended C3 at a concrete state. -/
theorem unplug_unplugged_releases_slot_witness :
    (2 : ℕ) ∉ (⟨{0}, 1⟩ : BusState).socks
    ∧ unplugF ⟨{0}, 1⟩ 2 = some ⟨{0}, 0⟩ :=
  ⟨by decide, (unplug_unplugged_releases_slot ⟨{0}, 1⟩ 2 (by decide)).1 (by decide)⟩

/-! Tunnel port manager of ports.go.

Times are natural numbers of seconds. A Port carries its absolute port
number and the mutable state triple (tunnelTrying, tunnelTryingUntil,
tunnelConnected) plus whether a websocket is open. The pool state carries
the port count num, the round-robin cursor next, the port array as a list,
and the sticky id-to-port map as an association list from id to the index
of the assigned port in the array (modelling the Go map from id to port
pointer). -/

/-- One second, the handshake read deadline. -/
def oneSecond : ℕ := 1

/-- Two seconds, the tunnelTrying deadline length. -/
def twoSeconds : ℕ := 2

/-- One slot of the port range (struct port in ports.go). -/
structure Port where
  port : ℕ
  tunnelTrying : Bool
  tunnelTryingUntil : ℕ
  tunnelConnected : Bool
  wsOpen : Bool
deriving DecidableEq

instance : Inhabited Port := ⟨⟨0, false, 0, false, false⟩⟩

/-- The pool state (struct ports in ports.go). -/
structure PortsSt where
  num : ℕ
  next : ℕ
  ports : List Port
  portMap : List (String × ℕ)
deriving DecidableEq

/-- A port is eligible for nextPort selection: not connected, and not
trying with a deadline still in the future. -/
def eligiblePort (now : ℕ) (pt : Port) : Prop :=
  pt.tunnelConnected = false ∧ (pt.tunnelTrying = false ∨ pt.tunnelTryingUntil ≤ now)

instance (now : ℕ) (pt : Port) : Decidable (eligiblePort now pt) :=
  inferInstanceAs (Decidable (_ ∧ (_ ∨ _)))

/-- Marks a port trying with a fresh two-second deadline, as nextPort does
before returning it. -/
def markTrying (now : ℕ) (pt : Port) : Port :=
  { pt with tunnelTrying := true, tunnelTryingUntil := now + twoSeconds }

/-- Cursor advance of nextPort: increment and wrap to zero at num. -/
def bump (num n : ℕ) : ℕ := if n + 1 ≥ num then 0 else n + 1

/-- The loop body of ports.nextPort, with the remaining iteration count as
fuel (the Go loop runs exactly num iterations unless it returns early).
Each iteration inspects the port under the cursor, advances the cursor,
skips a connected port, skips a trying port whose deadline is in the
future, and otherwise marks the port trying and returns its index. -/
def nextPortAux (now : ℕ) : ℕ → PortsSt → Option ℕ × PortsSt
  | 0, st => (none, st)
  | fuel + 1, st =>
      let i := st.next
      let pt := st.ports.getD i default
      let st1 : PortsSt := { st with next := bump st.num st.next }
      if pt.tunnelConnected = true then nextPortAux now fuel st1
      else if pt.tunnelTrying = true ∧ now < pt.tunnelTryingUntil then
        nextPortAux now fuel st1
      else (some i, { st1 with ports := st1.ports.set i (markTrying now pt) })

/-- Model of ports.nextPort: one full lap of the loop. -/
def nextPort (now : ℕ) (st : PortsSt) : Option ℕ × PortsSt :=
  nextPortAux now st.num st

/-- The loop returns nothing exactly when every visited cursor position
holds an ineligible port. -/
theorem nextPortAux_none_iff (now : ℕ) (fuel : ℕ) (st : PortsSt) :
    (nextPortAux now fuel st).1 = none ↔
      ∀ j < fuel,
        ¬eligiblePort now (st.ports.getD ((bump st.num)^[j] st.next) default) := by
  induction fuel generalizing st with
  | zero => simp [nextPortAux]
  | succ fuel ih =>
      set pt := st.ports.getD st.next default with hpt
      by_cases hc : pt.tunnelConnected = true
      · have hstep : (nextPortAux now (fuel + 1) st).1
            = (nextPortAux now fuel { st with next := bump st.num st.next }).1 := by
          rw [nextPortAux]
          simp only [← hpt, if_pos hc]
        rw [hstep, ih]
        constructor
        · intro h j hj
          cases j with
          | zero =>
              simp only [Function.iterate_zero, id]
              intro helig
              rw [helig.1] at hc
              exact Bool.false_ne_true hc
          | succ j =>
              have := h j (Nat.lt_of_succ_lt_succ hj)
              simpa [Function.iterate_succ_apply] using this
        · intro h j hj
          have := h (j + 1) (Nat.succ_lt_succ hj)
          simpa [Function.iterate_succ_apply] using this
      · by_cases ht : pt.tunnelTrying = true ∧ now < pt.tunnelTryingUntil
        · have hstep : (nextPortAux now (fuel + 1) st).1
              = (nextPortAux now fuel { st with next := bump st.num st.next }).1 := by
            rw [nextPortAux]
            simp only [← hpt, if_neg hc, if_pos ht]
          rw [hstep, ih]
          constructor
          · intro h j hj
            cases j with
            | zero =>
                simp only [Function.iterate_zero, id]
                intro helig
                rcases helig.2 with h2 | h2
                · rw [h2] at ht
                  exact Bool.false_ne_true ht.1
                · exact Nat.not_lt.mpr h2 ht.2
            | succ j =>
                have := h j (Nat.lt_of_succ_lt_succ hj)
                simpa [Function.iterate_succ_apply] using this
          · intro h j hj
            have := h (j + 1) (Nat.succ_lt_succ hj)
            simpa [Function.iterate_succ_apply] using this
        · have hstep : nextPortAux now (fuel + 1) st
              = (some st.next,
                 { st with next := bump st.num st.next,
                           ports := st.ports.set st.next (markTrying now pt) }) := by
            rw [nextPortAux]
            simp only [← hpt, if_neg hc, if_neg ht]
          rw [hstep]
          simp only [Option.some_ne_none, false_iff, not_forall]
          refine ⟨0, Nat.succ_pos fuel, ?_⟩
          simp only [Function.iterate_zero, id, not_not, ← hpt]
          refine ⟨Bool.not_eq_true _ ▸ hc, ?_⟩
          rcases Decidable.em (pt.tunnelTrying = true) with h1 | h1
          · right
            exact Nat.not_lt.mp fun hlt => ht ⟨h1, hlt⟩
          · left
            exact Bool.not_eq_true _ ▸ h1

/-- The loop returns an index exactly for the first eligible port in cursor
order: the index is the cursor position after k skips, the ports before it
in cursor order are ineligible, the chosen port was eligible, and the new
state marks exactly that port trying with a fresh two-second deadline while
the cursor has advanced past it. -/
theorem nextPortAux_some_spec (now : ℕ) (fuel : ℕ) (st : PortsSt)
    (idx : ℕ) (st' : PortsSt)
    (h : nextPortAux now fuel st = (some idx, st')) :
    ∃ k, k < fuel
      ∧ idx = (bump st.num)^[k] st.next
      ∧ eligiblePort now (st.ports.getD idx default)
      ∧ (∀ j < k,
          ¬eligiblePort now (st.ports.getD ((bump st.num)^[j] st.next) default))
      ∧ st' = { num := st.num,
                next := (bump st.num)^[k + 1] st.next,
                ports := st.ports.set idx (markTrying now (st.ports.getD idx default)),
                portMap := st.portMap } := by
  induction fuel generalizing st with
  | zero =>
      rw [nextPortAux] at h
      exact absurd (congrArg Prod.fst h) (by simp)
  | succ fuel ih =>
      set pt := st.ports.getD st.next default with hpt
      by_cases hc : pt.tunnelConnected = true
      · rw [nextPortAux] at h
        simp only [← hpt, if_pos hc] at h
        obtain ⟨k, hk, hidx, helig, hbefore, hst⟩ := ih _ h
        refine ⟨k + 1, Nat.succ_lt_succ hk, ?_, helig, ?_, ?_⟩
        · rw [hidx]
          simp [Function.iterate_succ_apply]
        · intro j hj
          cases j with
          | zero =>
              simp only [Function.iterate_zero, id]
              intro he
              rw [he.1] at hc
              exact Bool.false_ne_true hc
          | succ j =>
              have := hbefore j (Nat.lt_of_succ_lt_succ hj)
              simpa [Function.iterate_succ_apply] using this
        · rw [hst]
          simp [Function.iterate_succ_apply]
      · by_cases ht : pt.tunnelTrying = true ∧ now < pt.tunnelTryingUntil
        · rw [nextPortAux] at h
          simp only [← hpt, if_neg hc, if_pos ht] at h
          obtain ⟨k, hk, hidx, helig, hbefore, hst⟩ := ih _ h
          refine ⟨k + 1, Nat.succ_lt_succ hk, ?_, helig, ?_, ?_⟩
          · rw [hidx]
            simp [Function.iterate_succ_apply]
          · intro j hj
            cases j with
            | zero =>
                simp only [Function.iterate_zero, id]
                intro he
                rcases he.2 with h2 | h2
                · rw [h2] at ht
                  exact Bool.false_ne_true ht.1
                · exact Nat.not_lt.mpr h2 ht.2
            | succ j =>
                have := hbefore j (Nat.lt_of_succ_lt_succ hj)
                simpa [Function.iterate_succ_apply] using this
          · rw [hst]
            simp [Function.iterate_succ_apply]
        · rw [nextPortAux] at h
          simp only [← hpt, if_neg hc, if_neg ht] at h
          have hidx : idx = st.next := by
            have := congrArg Prod.fst h
            simpa using this.symm
          have hst : st' = { num := st.num,
                             next := bump st.num st.next,
                             ports := st.ports.set st.next (markTrying now pt),
                             portMap := st.portMap } := by
            have := congrArg Prod.snd h
            simp only at this
            exact this.symm
          refine ⟨0, Nat.succ_pos fuel, by simp [hidx], ?_, by intro j hj; omega, ?_⟩
          · rw [hidx, ← hpt]
            refine ⟨Bool.not_eq_true _ ▸ hc, ?_⟩
            rcases Decidable.em (pt.tunnelTrying = true) with h1 | h1
            · right
              exact Nat.not_lt.mp fun hlt => ht ⟨h1, hlt⟩
            · left
              exact Bool.not_eq_true _ ▸ h1
          · rw [hst, hidx, ← hpt]
            simp [Function.iterate_succ_apply]

/-- Cursor advance is increment modulo num on in-range cursors. -/
theorem bump_eq_mod (num v : ℕ) (h : v < num) : bump num v = (v + 1) % num := by
  unfold bump
  by_cases hge : v + 1 ≥ num
  · have : v + 1 = num := Nat.le_antisymm (Nat.succ_le_of_lt h) hge
    rw [if_pos hge, this, Nat.mod_self]
  · rw [if_neg hge, Nat.mod_eq_of_lt (Nat.lt_of_not_le hge)]

/-- Iterating the cursor advance j times from an in-range start lands on
the start plus j, modulo num. -/
theorem bump_iterate (num next j : ℕ) (h : next < num) :
    (bump num)^[j] next = (next + j) % num := by
  have hpos : 0 < num := Nat.lt_of_le_of_lt (Nat.zero_le next) h
  induction j with
  | zero => simp [Nat.mod_eq_of_lt h]
  | succ j ih =>
      rw [Function.iterate_succ_apply', ih]
      rw [bump_eq_mod num _ (Nat.mod_lt _ hpos)]
      rw [Nat.mod_add_mod]
      rfl

/-- Every in-range index is reached within one lap of the cursor. -/
theorem bump_iterate_surj (num next i : ℕ) (hn : next < num) (hi : i < num) :
    ∃ j, j < num ∧ (bump num)^[j] next = i := by
  have hpos : 0 < num := Nat.lt_of_le_of_lt (Nat.zero_le i) hi
  refine ⟨(num + i - next) % num, Nat.mod_lt _ hpos, ?_⟩
  rw [bump_iterate num next _ hn]
  rw [Nat.add_mod_mod]
  have : next + (num + i - next) = num + i := by omega
  rw [this, Nat.add_mod_left, Nat.mod_eq_of_lt hi]

/-- C5: nextPort searches round-robin from the cursor for at most one lap,
skipping connected ports and ports trying with a live deadline (a trying
port whose deadline has passed counts as eligible again); it returns the
first eligible port in cursor order after marking it trying with a fresh
two-second deadline, and returns none exactly when the lap finds no
eligible port, which under a well-formed cursor means no port of the range
is eligible. -/
theorem nextPort_round_robin (now : ℕ) (st : PortsSt) :
    ((nextPort now st).1 = none ↔
       ∀ j < st.num,
         ¬eligiblePort now (st.ports.getD ((bump st.num)^[j] st.next) default))
    ∧ (∀ idx st', nextPort now st = (some idx, st') →
        ∃ k, k < st.num
          ∧ idx = (bump st.num)^[k] st.next
          ∧ eligiblePort now (st.ports.getD idx default)
          ∧ (∀ j < k,
              ¬eligiblePort now (st.ports.getD ((bump st.num)^[j] st.next) default))
          ∧ st'.ports = st.ports.set idx (markTrying now (st.ports.getD idx default))
          ∧ (markTrying now (st.ports.getD idx default)).tunnelTrying = true
          ∧ (markTrying now (st.ports.getD idx default)).tunnelTryingUntil
              = now + twoSeconds
          ∧ (markTrying now (st.ports.getD idx default)).tunnelConnected = false
          ∧ st'.portMap = st.portMap ∧ st'.num = st.num)
    ∧ (st.next < st.num →
        ((nextPort now st).1 = none ↔
           ∀ i < st.num, ¬eligiblePort now (st.ports.getD i default))) := by
  refine ⟨nextPortAux_none_iff now st.num st, ?_, ?_⟩
  · intro idx st' h
    obtain ⟨k, hk, hidx, helig, hbefore, hst⟩ := nextPortAux_some_spec now st.num st idx st' h
    refine ⟨k, hk, hidx, helig, hbefore, by rw [hst], rfl, rfl, ?_, by rw [hst], by rw [hst]⟩
    simp only [markTrying]
    exact helig.1
  · intro hn
    unfold nextPort
    rw [nextPortAux_none_iff now st.num st]
    constructor
    · intro h i hi
      obtain ⟨j, hj, hji⟩ := bump_iterate_surj st.num st.next i hn hi
      rw [← hji]
      exact h j hj
    · intro h j hj
      have hpos : 0 < st.num := Nat.lt_of_le_of_lt (Nat.zero_le _) hn
      have : (bump st.num)^[j] st.next < st.num := by
        rw [bump_iterate st.num st.next j hn]
        exact Nat.mod_lt _ hpos
      exact h _ this

/-- A connected port in slot 0 and an idle port in slot 1, for witnesses. -/
def wPortConn : Port := ⟨8081, false, 0, true, false⟩

/-- The idle witness port. -/
def wPortIdle : Port := ⟨8082, false, 0, false, false⟩

/-- The witness pool: two ports, cursor at 0, empty sticky map. -/
def wPool : PortsSt := ⟨2, 0, [wPortConn, wPortIdle], []⟩

/-- Witness for C5: on the concrete pool the search skips the connected
port in slot 0 and selects slot 1. -/
theorem nextPort_round_robin_witness :
    ∃ k, k < wPool.num
      ∧ (1 : ℕ) = (bump wPool.num)^[k] wPool.next
      ∧ eligiblePort 5 (wPool.ports.getD 1 default)
      ∧ (∀ j < k,
          ¬eligiblePort 5 (wPool.ports.getD ((bump wPool.num)^[j] wPool.next) default))
      ∧ (nextPort 5 wPool).2.ports
          = wPool.ports.set 1 (markTrying 5 (wPool.ports.getD 1 default))
      ∧ (markTrying 5 (wPool.ports.getD 1 default)).tunnelTrying = true
      ∧ (markTrying 5 (wPool.ports.getD 1 default)).tunnelTryingUntil = 5 + twoSeconds
      ∧ (markTrying 5 (wPool.ports.getD 1 default)).tunnelConnected = false
      ∧ (nextPort 5 wPool).2.portMap = wPool.portMap
      ∧ (nextPort 5 wPool).2.num = wPool.num := by
  obtain ⟨k, hk, h1, h2, h3, h4, h5, h6, h7, h8, h9⟩ :=
    (nextPort_round_robin 5 wPool).2.1 1 (nextPort 5 wPool).2 (by rfl)
  exact ⟨k, hk, h1, h2, h3, h4, h5, h6, h7, h8, h9⟩

/-- Association-list lookup for the sticky id-to-port map. -/
def mapLookup : List (String × ℕ) → String → Option ℕ
  | [], _ => none
  | (k, v) :: rest, key => if k = key then some v else mapLookup rest key

/-- Model of ports.getPort. Sticky lookup first: an assigned port is
returned by number unless it is currently connected, in which case the busy
sentinel -2 is returned; an unassigned id goes through nextPort, either
failing with the no-ports sentinel -1 or recording the fresh assignment. -/
def getPort (now : ℕ) (st : PortsSt) (id : String) : Int × PortsSt :=
  match mapLookup st.portMap id with
  | some idx =>
      let pt := st.ports.getD idx default
      if pt.tunnelConnected = true then (-2, st) else ((pt.port : Int), st)
  | none =>
      match nextPort now st with
      | (none, st1) => (-1, st1)
      | (some idx, st1) =>
          (((st1.ports.getD idx default).port : Int),
           { st1 with portMap := st1.portMap ++ [(id, idx)] })

/-- Lookup in the sticky map after appending a fresh assignment. -/
theorem mapLookup_append_self (pm : List (String × ℕ)) (id : String) (v : ℕ)
    (h : mapLookup pm id = none) :
    mapLookup (pm ++ [(id, v)]) id = some v := by
  induction pm with
  | nil => simp [mapLookup]
  | cons hd tl ih =>
      obtain ⟨a, w⟩ := hd
      by_cases hk : a = id
      · simp [mapLookup, hk] at h
      · simp only [mapLookup, if_neg hk] at h
        simp only [List.cons_append, mapLookup, if_neg hk]
        exact ih h

/-- Reading an updated slot of the port array returns the update. -/
theorem getD_set_self (l : List Port) (i : ℕ) (a d : Port) (h : i < l.length) :
    (l.set i a).getD i d = a := by
  induction l generalizing i with
  | nil => simp at h
  | cons hd tl ih =>
      cases i with
      | zero => rfl
      | succ i =>
          simp only [List.length_cons] at h
          exact ih i (Nat.lt_of_succ_lt_succ h)

/-- C10: getPort on an id whose assigned port is not connected returns
that port number and returns the pool state unchanged: same cursor, same
sticky map, and every port with the same trying flag, deadline and
connected flag as before. -/
theorem getPort_assigned_idle_frame (now : ℕ) (st : PortsSt) (id : String)
    (idx : ℕ)
    (hlk : mapLookup st.portMap id = some idx)
    (hconn : (st.ports.getD idx default).tunnelConnected = false) :
    getPort now st id = (((st.ports.getD idx default).port : Int), st) := by
  unfold getPort
  rw [hlk]
  simp [hconn]
  simpa using hconn

/-- Witness for C10 on a concrete pool with an assigned idle port. -/
theorem getPort_assigned_idle_frame_witness :
    mapLookup [("child", 1)] "child" = some 1
    ∧ ([wPortConn, wPortIdle].getD 1 default).tunnelConnected = false
    ∧ getPort 5 ⟨2, 0, [wPortConn, wPortIdle], [("child", 1)]⟩ "child"
        = ((8082 : Int), ⟨2, 0, [wPortConn, wPortIdle], [("child", 1)]⟩) :=
  ⟨rfl, rfl,
   getPort_assigned_idle_frame 5 ⟨2, 0, [wPortConn, wPortIdle], [("child", 1)]⟩
     "child" 1 rfl rfl⟩

/-- C4: getPort is a sticky lookup. An id with an assignment gets the busy
sentinel -2 when its port is connected and otherwise its port number; an id
with no assignment gets the no-ports sentinel -1 when nextPort finds
nothing, and otherwise the fresh assignment is recorded so that a later
getPort of the same id returns the same number again. -/
theorem getPort_sticky :
    (∀ (now : ℕ) (st : PortsSt) (id : String) (idx : ℕ),
        mapLookup st.portMap id = some idx →
        (st.ports.getD idx default).tunnelConnected = true →
        getPort now st id = (-2, st))
    ∧ (∀ (now : ℕ) (st : PortsSt) (id : String) (idx : ℕ),
        mapLookup st.portMap id = some idx →
        (st.ports.getD idx default).tunnelConnected = false →
        getPort now st id = (((st.ports.getD idx default).port : Int), st))
    ∧ (∀ (now : ℕ) (st : PortsSt) (id : String) (st1 : PortsSt),
        mapLookup st.portMap id = none →
        nextPort now st = (none, st1) →
        getPort now st id = (-1, st1))
    ∧ (∀ (now : ℕ) (st : PortsSt) (id : String) (idx : ℕ) (st1 : PortsSt),
        mapLookup st.portMap id = none →
        nextPort now st = (some idx, st1) →
        getPort now st id
            = (((st1.ports.getD idx default).port : Int),
               { st1 with portMap := st1.portMap ++ [(id, idx)] })
          ∧ mapLookup ({ st1 with portMap := st1.portMap ++ [(id, idx)] }).portMap id
              = some idx
          ∧ (st.next < st.num → st.ports.length = st.num →
              ∀ now2 : ℕ,
                getPort now2 { st1 with portMap := st1.portMap ++ [(id, idx)] } id
                  = (((st1.ports.getD idx default).port : Int),
                     { st1 with portMap := st1.portMap ++ [(id, idx)] }))) := by
  refine ⟨?_, ?_, ?_, ?_⟩
  · intro now st id idx hlk hconn
    unfold getPort
    rw [hlk]
    simp only [hconn, if_pos]
  · intro now st id idx hlk hconn
    exact getPort_assigned_idle_frame now st id idx hlk hconn
  · intro now st id st1 hlk hnext
    unfold getPort
    rw [hlk, hnext]
  · intro now st id idx st1 hlk hnext
    obtain ⟨k, hk, hidx, helig, _, hports, _, _, hconn', hpm, hnum⟩ :=
      (nextPort_round_robin now st).2.1 idx st1 hnext
    have hmain : getPort now st id
        = (((st1.ports.getD idx default).port : Int),
           { st1 with portMap := st1.portMap ++ [(id, idx)] }) := by
      unfold getPort
      rw [hlk, hnext]
    have hlk2 : mapLookup (st1.portMap ++ [(id, idx)]) id = some idx := by
      refine mapLookup_append_self st1.portMap id idx ?_
      rw [hpm]
      exact hlk
    refine ⟨hmain, hlk2, ?_⟩
    intro hcur hlen now2
    have hidxlt : idx < st.ports.length := by
      rw [hlen, hidx]
      rw [bump_iterate st.num st.next k hcur]
      exact Nat.mod_lt _ (Nat.lt_of_le_of_lt (Nat.zero_le _) hcur)
    have hget : st1.ports.getD idx default
        = markTrying now (st.ports.getD idx default) := by
      rw [hports]
      exact getD_set_self st.ports idx _ default hidxlt
    have hc2 : (({ st1 with portMap := st1.portMap ++ [(id, idx)] } : PortsSt).ports.getD
        idx default).tunnelConnected = false := by
      show (st1.ports.getD idx default).tunnelConnected = false
      rw [hget]
      show (st.ports.getD idx default).tunnelConnected = false
      exact helig.1
    exact getPort_assigned_idle_frame now2 _ id idx hlk2 hc2

/-- Witness for C4, exercising all four branches on concrete pools. -/
theorem getPort_sticky_witness :
    getPort 5 ⟨1, 0, [wPortConn], [("a", 0)]⟩ "a" = (-2, ⟨1, 0, [wPortConn], [("a", 0)]⟩)
    ∧ getPort 5 ⟨2, 0, [wPortConn, wPortIdle], [("b", 1)]⟩ "b"
        = ((8082 : Int), ⟨2, 0, [wPortConn, wPortIdle], [("b", 1)]⟩)
    ∧ getPort 5 ⟨1, 0, [wPortConn], []⟩ "c" = (-1, ⟨1, 0, [wPortConn], []⟩)
    ∧ getPort 5 wPool "d"
        = ((8082 : Int),
           { (nextPort 5 wPool).2 with
               portMap := (nextPort 5 wPool).2.portMap ++ [("d", 1)] }) := by
  refine ⟨?_, ?_, ?_, ?_⟩
  · exact getPort_sticky.1 5 _ "a" 0 rfl rfl
  · exact getPort_sticky.2.1 5 _ "b" 1 rfl rfl
  · exact getPort_sticky.2.2.1 5 _ "c" _ rfl rfl
  · exact (getPort_sticky.2.2.2 5 wPool "d" 1 (nextPort 5 wPool).2 rfl rfl).1

/-! Identity handshake of port.wsReplyIdentity and port.attach.

The incoming frames of the websocket are a list of pairs (gap, message):
the time from arming a read to the arrival of the next frame. The code
arms a fresh one-second read deadline before every read (SetReadDeadline
inside the again loop), so a read fails with a timeout exactly when its
frame does not arrive within one second of that read starting; an empty
remaining stream means no frame ever arrives, so the pending read times
out at its deadline. The handshake discriminator is the string constant
ReplyIdentity. -/

/-- The identity reply message (MsgIdentity in the source). -/
structure MsgIdentity where
  Msg : String
  Id : String
  Model : String
  Name : String
  StartupTime : ℕ
  Status : String
deriving DecidableEq

/-- Discriminator of the identity reply. -/
def ReplyIdentity : String := "ReplyIdentity"

/-- Model of port.wsReplyIdentity: repeatedly read with a freshly armed
one-second deadline; on a timeout return an error (none); on a message
whose discriminator is not ReplyIdentity, log, skip and read again; on a
ReplyIdentity clear the deadline and return the message. The second
component is the total time spent waiting. -/
def wsReplyIdentity : List (ℕ × MsgIdentity) → Option MsgIdentity × ℕ
  | [] => (none, oneSecond)
  | (gap, m) :: rest =>
      if oneSecond < gap then (none, oneSecond)
      else if m.Msg ≠ ReplyIdentity then
        let r := wsReplyIdentity rest
        (r.1, gap + r.2)
      else (some m, gap)

/-- Model of port.wsConnect: the dial of wsOpen either fails (dialOk
false) or yields the frame stream; then the identity request is written
and wsReplyIdentity awaited; any error is propagated to the caller. -/
def wsConnect (dialOk : Bool) (stream : List (ℕ × MsgIdentity)) : Option MsgIdentity :=
  if dialOk = false then none else (wsReplyIdentity stream).1

/-- Model of port.wsDisconnect: close the websocket and mark the tunnel
not connected. -/
def wsDisconnect (pt : Port) : Port :=
  { pt with wsOpen := false, tunnelConnected := false }

/-- Model of port.attach: run wsConnect, log a connect failure, run the
attach callback on success; the deferred wsDisconnect runs on every exit
path. The first component is the identity obtained, none on failure. -/
def attach (dialOk : Bool) (stream : List (ℕ × MsgIdentity)) (pt : Port) :
    Option MsgIdentity × Port :=
  (wsConnect dialOk stream, wsDisconnect pt)

/-- A non-identity message seen during the wait, for concrete runs. -/
def junkIdentity : MsgIdentity := ⟨"GetChildren", "", "", "", 0, ""⟩

/-- A well-formed identity reply, for concrete runs. -/
def replyIdentity : MsgIdentity := ⟨"ReplyIdentity", "id1", "m", "n", 0, "online"⟩

/-- Counterexample to C6 as stated: each read meets its own freshly armed
one-second deadline, yet the whole wait lasts two seconds and still
succeeds, because the deadline is re-armed before every read; the whole
wait is not bounded by the fixed one-second deadline. -/
theorem handshake_whole_wait_unbounded :
    (∀ e ∈ [((1 : ℕ), junkIdentity), (1, replyIdentity)], e.1 ≤ oneSecond)
    ∧ wsReplyIdentity [(1, junkIdentity), (1, replyIdentity)] = (some replyIdentity, 2)
    ∧ oneSecond < 2 := by
  refine ⟨by decide, by decide, by decide⟩

/-- C6 amended: a received message whose discriminator is not
ReplyIdentity is discarded without error and the read repeats with a
freshly armed one-second deadline, so each individual read, not the whole
wait, is bounded by one second; a read that misses its deadline is an
error returned to the caller, a successful wait always ends on a
ReplyIdentity, and on any connect failure attach closes the connection and
the port ends not connected. -/
theorem handshake_skip_and_recover :
    (∀ (gap : ℕ) (m : MsgIdentity) (rest : List (ℕ × MsgIdentity)),
        gap ≤ oneSecond → m.Msg ≠ ReplyIdentity →
        (wsReplyIdentity ((gap, m) :: rest)).1 = (wsReplyIdentity rest).1)
    ∧ (∀ (gap : ℕ) (m : MsgIdentity) (rest : List (ℕ × MsgIdentity)),
        oneSecond < gap → wsReplyIdentity ((gap, m) :: rest) = (none, oneSecond))
    ∧ (∀ (stream : List (ℕ × MsgIdentity)) (m : MsgIdentity) (t : ℕ),
        wsReplyIdentity stream = (some m, t) → m.Msg = ReplyIdentity)
    ∧ (∀ (dialOk : Bool) (stream : List (ℕ × MsgIdentity)) (pt : Port),
        wsConnect dialOk stream = none →
        attach dialOk stream pt = (none, wsDisconnect pt)
          ∧ (attach dialOk stream pt).2.tunnelConnected = false
          ∧ (attach dialOk stream pt).2.wsOpen = false) := by
  refine ⟨?_, ?_, ?_, ?_⟩
  · intro gap m rest hg hm
    conv_lhs => rw [wsReplyIdentity]
    rw [if_neg (Nat.not_lt.mpr hg), if_pos hm]
  · intro gap m rest hg
    unfold wsReplyIdentity
    rw [if_pos hg]
  · intro stream
    induction stream with
    | nil =>
        intro m t h
        exact absurd (congrArg Prod.fst h) (by simp [wsReplyIdentity])
    | cons hd rest ih =>
        intro m t h
        obtain ⟨gap, m0⟩ := hd
        unfold wsReplyIdentity at h
        by_cases hg : oneSecond < gap
        · rw [if_pos hg] at h
          exact absurd (congrArg Prod.fst h) (by simp)
        · rw [if_neg hg] at h
          by_cases hm : m0.Msg ≠ ReplyIdentity
          · rw [if_pos hm] at h
            have h1 : (wsReplyIdentity rest).1 = some m := congrArg Prod.fst h
            exact ih m (wsReplyIdentity rest).2 (Prod.ext h1 rfl)
          · rw [if_neg hm] at h
            have h1 : m0 = m := by
              have := congrArg Prod.fst h
              simpa using this
            rw [← h1]
            exact Decidable.not_not.mp hm
  · intro dialOk stream pt h
    refine ⟨?_, rfl, rfl⟩
    unfold attach
    rw [h]

/-- Witness for the amended C6 at concrete frame streams. -/
theorem handshake_skip_and_recover_witness :
    (wsReplyIdentity ((1, junkIdentity) :: [(1, replyIdentity)])).1
        = (wsReplyIdentity [(1, replyIdentity)]).1
    ∧ wsReplyIdentity ((2, junkIdentity) :: []) = (none, oneSecond)
    ∧ (attach true [] wPortIdle = (none, wsDisconnect wPortIdle)
        ∧ (attach true [] wPortIdle).2.tunnelConnected = false
        ∧ (attach true [] wPortIdle).2.wsOpen = false) :=
  ⟨handshake_skip_and_recover.1 1 junkIdentity [(1, replyIdentity)] (by decide) (by decide),
   handshake_skip_and_recover.2.1 2 junkIdentity [] (by decide),
   handshake_skip_and_recover.2.2.2 true [] wPortIdle rfl⟩

end Merle
